import Mathlib

/-!
Shallow embedding of the fixed-step Euler ODE integrator and the
interactive sweep harness of the `eth-edc23` coursework notebooks
(`session_02/Python_Intro/2_odes.ipynb` and callers).

The Python source is

```
def solve_ode_euler(dydt, y0, Dt=0.1, t_end=10):
    n_steps = int(t_end / Dt)
    t_values = np.linspace(0, t_end, n_steps + 1)
    y_values = np.zeros(n_steps + 1)
    y_values[0] = y0
    for i in range(n_steps):
        y_values[i+1] = y_values[i] + dydt(y_values[i], t_values[i]) * Dt
    return t_values, y_values
```

The state is a scalar (`y0` a number, `y_values` a 1-d float array).
Floating-point numbers are idealised as exact rationals `ℚ`; the
integer truncation `int(...)`, the `np.linspace` grid and the Euler
update are translated exactly.  The function performs no argument
validation; the incidental Python errors it can hit (float division by
zero in `t_end / Dt`, `ValueError` from `np.linspace` on a negative
sample count, `IndexError` from `y_values[0] = y0` on an empty array)
are modelled with an explicit error type, in the order the interpreter
would raise them.
-/

namespace EthEdc

/-- Python `int()` applied to a real number: truncation toward zero,
as in `n_steps = int(t_end / Dt)`. -/
def pyInt (q : ℚ) : ℤ := Int.tdiv q.num q.den

/-- The runtime errors the Python body of `solve_ode_euler` can raise:
`ZeroDivisionError` from `t_end / Dt` with `Dt = 0`, `ValueError` from
`np.linspace(0, t_end, n)` with `n < 0`, and `IndexError` from
`y_values[0] = y0` when `y_values` has length 0. -/
inductive PyError where
  | zeroDivisionError
  | valueError
  | indexError
  deriving DecidableEq, Repr

instance {α β : Type} [DecidableEq α] [DecidableEq β] : DecidableEq (Except α β) :=
  fun a b =>
    match a, b with
    | .ok x, .ok y => decidable_of_iff (x = y) (by simp)
    | .error x, .error y => decidable_of_iff (x = y) (by simp)
    | .ok _, .error _ => .isFalse (by simp)
    | .error _, .ok _ => .isFalse (by simp)

/-- Embedding of `np.linspace(start, stop, num)`: `num` evenly spaced samples from
`start` to `stop`, endpoint included (`[start]` for `num = 1`, `[]`
for `num = 0`). -/
def linspace (start stop : ℚ) (num : ℕ) : List ℚ :=
  if num = 1 then [start]
  else (List.range num).map (fun i : ℕ => start + (i : ℚ) * (stop - start) / ((num : ℚ) - 1))

/-- The Euler loop of `solve_ode_euler`: one state update
`y_values[i+1] = y_values[i] + dydt(y_values[i], t_values[i]) * Dt`
per element of the supplied prefix of the time grid; returns the whole
list of states, the initial one included. -/
def eulerStates (dydt : ℚ → ℚ → ℚ) (Dt : ℚ) : List ℚ → ℚ → List ℚ
  | [], y => [y]
  | t :: ts, y => y :: eulerStates dydt Dt ts (y + dydt y t * Dt)

/-- Embedding of `solve_ode_euler(dydt, y0, Dt, t_end)` from
`session_02/Python_Intro/2_odes.ipynb`: `n_steps = int(t_end / Dt)`
Euler steps over the grid `np.linspace(0, t_end, n_steps + 1)`,
returning the pair `(t_values, y_values)`. -/
def solve_ode_euler (dydt : ℚ → ℚ → ℚ) (y0 Dt t_end : ℚ) :
    Except PyError (List ℚ × List ℚ) :=
  if Dt = 0 then .error .zeroDivisionError
  else
    let n_steps : ℤ := pyInt (t_end / Dt)
    if n_steps + 1 < 0 then .error .valueError
    else if n_steps + 1 = 0 then .error .indexError
    else
      let t_values := linspace 0 t_end (n_steps + 1).toNat
      let y_values := eulerStates dydt Dt (t_values.take n_steps.toNat) y0
      .ok (t_values, y_values)

/-- The Euler loop with a fallible derivative function: a Python
`dydt` may raise, and the loop body contains no `try`/`except`, so the
first raised error aborts the loop. -/
def eulerStatesE {ε : Type} (dydt : ℚ → ℚ → Except ε ℚ) (Dt : ℚ) :
    List ℚ → ℚ → Except ε (List ℚ)
  | [], y => .ok [y]
  | t :: ts, y =>
    match dydt y t with
    | .error e => .error e
    | .ok d =>
      match eulerStatesE dydt Dt ts (y + d * Dt) with
      | .error e => .error e
      | .ok l => .ok (y :: l)

/-- Variant of `solve_ode_euler` with a fallible derivative function: identical
control flow to `solve_ode_euler`, with the caller-supplied `dydt`
allowed to fail; its errors (`Sum.inr`) and the interpreter's own
(`Sum.inl`) are kept apart. -/
def solve_ode_eulerE {ε : Type} (dydt : ℚ → ℚ → Except ε ℚ) (y0 Dt t_end : ℚ) :
    Except (PyError ⊕ ε) (List ℚ × List ℚ) :=
  if Dt = 0 then .error (.inl .zeroDivisionError)
  else
    let n_steps : ℤ := pyInt (t_end / Dt)
    if n_steps + 1 < 0 then .error (.inl .valueError)
    else if n_steps + 1 = 0 then .error (.inl .indexError)
    else
      let t_values := linspace 0 t_end (n_steps + 1).toNat
      match eulerStatesE dydt Dt (t_values.take n_steps.toNat) y0 with
      | .error e => .error (.inr e)
      | .ok y_values => .ok (t_values, y_values)

/-- Embedding of `exp_decay_dt(y, t, k=1)` from the notebook: the exponential-decay
derivative `-k * y`. -/
def exp_decay_dt (y _t k : ℚ) : ℚ := -k * y

/-- Embedding of `solve_and_plot(Dt)` from the notebook (plotting stripped): runs
`solve_ode_euler(dydt=exp_decay_dt, y0=10, Dt=Dt, t_end=10)`. -/
def solve_and_plot (Dt : ℚ) : Except PyError (List ℚ × List ℚ) :=
  solve_ode_euler (fun y t => exp_decay_dt y t 1) 10 Dt 10

/-- Modelled from the spec: the Harness's parameter descriptor
(name omitted): minimum, maximum, slider step and default value.  The
repository itself delegates this to the external `ipywidgets` slider
(`interact(solve_and_plot, Dt=(0.0, 2.0, 0.1))`), whose descriptor is
not repository code. -/
structure ParamDescriptor where
  minimum : ℚ
  maximum : ℚ
  step : ℚ
  dflt : ℚ
  deriving DecidableEq, Repr

/-- Modelled from the spec: slider semantics clamp an out-of-range
parameter value silently to the declared `[minimum, maximum]` range.
The clamping itself lives in the external widget library, not in
repository code. -/
def clampParam (d : ParamDescriptor) (v : ℚ) : ℚ :=
  max d.minimum (min d.maximum v)

/-- Modelled from the spec: on a parameter change the Harness re-runs
the Integrator (here `solve_and_plot`, the notebook's binding of the
parameter to the step size) on the clamped value and hands the
trajectory to the renderer. -/
def harnessTrajectory (d : ParamDescriptor) (v : ℚ) :
    Except PyError (List ℚ × List ℚ) :=
  solve_and_plot (clampParam d v)

/-- The value `int(t_end / Dt)`, the number of Euler steps, as a natural number:
equals `⌊t_end / Dt⌋` on every valid input (`Dt > 0`, `t_end ≥ 0`). -/
def stepCount (Dt t_end : ℚ) : ℕ := (⌊t_end / Dt⌋).toNat

/-- The time grid `solve_ode_euler` actually produces on valid inputs:
`stepCount + 1` multiples of `t_end / stepCount` (a single `0` when
`stepCount = 0`). -/
def timeGrid (Dt t_end : ℚ) : List ℚ :=
  (List.range (stepCount Dt t_end + 1)).map
    (fun i : ℕ => (i : ℚ) * t_end / (stepCount Dt t_end : ℚ))

/-! ### Basic lemmas about the embedding -/

/-- On a nonnegative rational, Python truncation agrees with the floor. -/
lemma pyInt_eq_floor {q : ℚ} (h : 0 ≤ q) : pyInt q = ⌊q⌋ := by
  rw [Rat.floor_def]
  exact Int.tdiv_eq_ediv (Rat.num_nonneg.mpr h) (by positivity)

/-- The grid `np.linspace(0, t, n + 1)` is the list of the `n + 1` multiples of
`t / n` (including the degenerate `n = 0` case, where it is `[0]`). -/
lemma linspace_zero_eq_map (t : ℚ) (n : ℕ) :
    linspace 0 t (n + 1) =
      (List.range (n + 1)).map (fun i : ℕ => (i : ℚ) * t / (n : ℚ)) := by
  rcases n with _ | m
  · rw [show List.range 1 = [0] from rfl]
    norm_num [linspace]
  · unfold linspace
    rw [if_neg (by omega)]
    refine List.map_congr_left fun i _ => ?_
    push_cast
    ring

/-- Length of the Euler loop output: one state per consumed grid time,
plus the initial state. -/
lemma eulerStates_length (f : ℚ → ℚ → ℚ) (Dt : ℚ) :
    ∀ (ts : List ℚ) (y : ℚ), (eulerStates f Dt ts y).length = ts.length + 1 := by
  intro ts
  induction ts with
  | nil => intro y; rfl
  | cons t ts ih => intro y; simp [eulerStates, ih]

/-- The Euler loop's first state is the initial state. -/
lemma eulerStates_getD_zero (f : ℚ → ℚ → ℚ) (Dt : ℚ) (ts : List ℚ) (y : ℚ) :
    (eulerStates f Dt ts y).getD 0 0 = y := by
  cases ts <;> rfl

/-- On valid inputs (`Dt > 0`, `t_end ≥ 0`) `solve_ode_euler` succeeds
and returns the grid `timeGrid` with the Euler states over its first
`stepCount` entries. -/
lemma solve_ode_euler_ok (f : ℚ → ℚ → ℚ) (y0 Dt t_end : ℚ)
    (hDt : 0 < Dt) (ht : 0 ≤ t_end) :
    solve_ode_euler f y0 Dt t_end =
      .ok (timeGrid Dt t_end,
           eulerStates f Dt ((timeGrid Dt t_end).take (stepCount Dt t_end)) y0) := by
  have hDt0 : Dt ≠ 0 := ne_of_gt hDt
  have hq : 0 ≤ t_end / Dt := div_nonneg ht hDt.le
  have hfl : 0 ≤ ⌊t_end / Dt⌋ := Int.floor_nonneg.mpr hq
  have hpy : pyInt (t_end / Dt) = ⌊t_end / Dt⌋ := pyInt_eq_floor hq
  have htn : (⌊t_end / Dt⌋ + 1).toNat = stepCount Dt t_end + 1 := by
    unfold stepCount; omega
  have htn2 : (⌊t_end / Dt⌋).toNat = stepCount Dt t_end := rfl
  unfold solve_ode_euler
  rw [if_neg hDt0, hpy, if_neg (by omega), if_neg (by omega), htn, htn2,
    linspace_zero_eq_map]
  rfl

/-- Compute `stepCount` from a bracketing of the horizon between
consecutive multiples of the step size. -/
lemma stepCount_eq {Dt t_end : ℚ} (n : ℕ) (hDt : 0 < Dt)
    (h1 : (n : ℚ) * Dt ≤ t_end) (h2 : t_end < ((n : ℚ) + 1) * Dt) :
    stepCount Dt t_end = n := by
  unfold stepCount
  have hfl : ⌊t_end / Dt⌋ = (n : ℤ) := by
    rw [Int.floor_eq_iff]
    constructor
    · rw [le_div_iff₀ hDt]
      exact_mod_cast h1
    · rw [div_lt_iff₀ hDt]
      push_cast
      exact_mod_cast h2
  rw [hfl]
  exact Int.toNat_natCast n

/-- At least one Euler step is taken as soon as the horizon reaches
the step size. -/
lemma one_le_stepCount {Dt t_end : ℚ} (hDt : 0 < Dt) (h : Dt ≤ t_end) :
    1 ≤ stepCount Dt t_end := by
  unfold stepCount
  have h1 : (1 : ℤ) ≤ ⌊t_end / Dt⌋ := by
    rw [Int.le_floor, le_div_iff₀ hDt]
    push_cast
    linarith
  omega

lemma timeGrid_length (Dt t_end : ℚ) :
    (timeGrid Dt t_end).length = stepCount Dt t_end + 1 := by
  simp only [timeGrid, List.length_map, List.length_range]

/-- Entry `i` of the time grid is the `i`-th multiple of
`t_end / stepCount`. -/
lemma timeGrid_getD (Dt t_end : ℚ) {i : ℕ} (h : i < stepCount Dt t_end + 1) :
    (timeGrid Dt t_end).getD i 0 =
      (i : ℚ) * t_end / (stepCount Dt t_end : ℚ) := by
  unfold timeGrid
  rw [List.getD_eq_getElem _ _ (by
    simp only [List.length_map, List.length_range]
    exact h)]
  simp only [List.getElem_map, List.getElem_range]

lemma timeGrid_head (Dt t_end : ℚ) : (timeGrid Dt t_end).head? = some 0 := by
  unfold timeGrid
  rw [List.range_succ_eq_map]
  simp

/-- With at least one step taken, the grid ends exactly at the horizon. -/
lemma timeGrid_getLast (Dt t_end : ℚ) (h : 1 ≤ stepCount Dt t_end) :
    (timeGrid Dt t_end).getLast? = some t_end := by
  unfold timeGrid
  rw [List.range_succ, List.map_append]
  simp only [List.map_cons, List.map_nil, List.getLast?_concat]
  congr 1
  rw [mul_comm, mul_div_assoc,
    div_self (Nat.cast_ne_zero.mpr (by omega : stepCount Dt t_end ≠ 0)), mul_one]

/-- Step `i+1` of the Euler loop applies the update rule to step `i`
and the `i`-th grid time. -/
lemma eulerStates_getD_succ (f : ℚ → ℚ → ℚ) (Dt : ℚ) :
    ∀ (ts : List ℚ) (y : ℚ) (i : ℕ), i < ts.length →
      (eulerStates f Dt ts y).getD (i + 1) 0 =
        (eulerStates f Dt ts y).getD i 0 +
          f ((eulerStates f Dt ts y).getD i 0) (ts.getD i 0) * Dt := by
  intro ts
  induction ts with
  | nil => intro y i h; simp at h
  | cons t ts ih =>
    intro y i h
    rcases i with _ | j
    · simp only [eulerStates, List.getD_cons_succ, List.getD_cons_zero]
      rw [eulerStates_getD_zero]
    · simp only [eulerStates, List.getD_cons_succ]
      exact ih (y + f y t * Dt) j (by simpa using h)

/-- With the identically-zero derivative the Euler loop repeats the
initial state. -/
lemma eulerStates_zero (Dt : ℚ) :
    ∀ (ts : List ℚ) (y : ℚ),
      eulerStates (fun _ _ => 0) Dt ts y = List.replicate (ts.length + 1) y := by
  intro ts
  induction ts with
  | nil => intro y; simp [eulerStates]
  | cons t ts ih =>
    intro y
    simp [eulerStates, ih, List.replicate_succ]

/-- Closed form of the Euler loop for the exponential-decay
derivative: a geometric sequence with ratio `1 - k * Dt`. -/
lemma eulerStates_exp_decay (k Dt : ℚ) :
    ∀ (ts : List ℚ) (y : ℚ),
      eulerStates (fun y t => exp_decay_dt y t k) Dt ts y =
        (List.range (ts.length + 1)).map (fun i => y * (1 - k * Dt) ^ i) := by
  intro ts
  induction ts with
  | nil =>
    intro y
    simp [eulerStates, List.range_succ]
  | cons t ts ih =>
    intro y
    have hupd : y + exp_decay_dt y t k * Dt = y * (1 - k * Dt) := by
      unfold exp_decay_dt; ring
    simp only [eulerStates, hupd, ih, List.length_cons]
    rw [show List.range (ts.length + 1 + 1) =
        0 :: (List.range (ts.length + 1)).map Nat.succ from List.range_succ_eq_map _]
    rw [List.map_cons, List.map_map]
    simp only [Nat.cast_zero, pow_zero, mul_one]
    congr 1
    refine List.map_congr_left fun i _ => ?_
    simp only [Function.comp_apply, pow_succ]
    ring

/-- Last element of a mapped `List.range`. -/
lemma getLast?_map_range {α : Type} (f : ℕ → α) (n : ℕ) :
    ((List.range (n + 1)).map f).getLast? = some (f n) := by
  rw [List.range_succ, List.map_append]
  simp only [List.map_cons, List.map_nil, List.getLast?_concat]

/-- When `int(t_end / Dt) = 0` the function returns the one-sample
trajectory `([0], [y0])` without evaluating the derivative. -/
lemma solve_ode_euler_of_pyInt_zero (f : ℚ → ℚ → ℚ) (y0 Dt t_end : ℚ)
    (hDt0 : Dt ≠ 0) (hpy : pyInt (t_end / Dt) = 0) :
    solve_ode_euler f y0 Dt t_end = .ok ([0], [y0]) := by
  unfold solve_ode_euler
  rw [if_neg hDt0, hpy]
  norm_num [linspace, eulerStates]

/-- Fallible analogue of `solve_ode_euler_of_pyInt_zero`. -/
lemma solve_ode_eulerE_of_pyInt_zero {ε : Type} (dydt : ℚ → ℚ → Except ε ℚ)
    (y0 Dt t_end : ℚ) (hDt0 : Dt ≠ 0) (hpy : pyInt (t_end / Dt) = 0) :
    solve_ode_eulerE dydt y0 Dt t_end = .ok ([0], [y0]) := by
  unfold solve_ode_eulerE
  rw [if_neg hDt0, hpy]
  norm_num [linspace, eulerStatesE]

/-- For a horizon below one step, `int(t_end / Dt) = 0`. -/
lemma pyInt_zero_of_small {Dt t_end : ℚ} (hDt : 0 < Dt) (ht : 0 ≤ t_end)
    (h : t_end < Dt) : pyInt (t_end / Dt) = 0 := by
  have hq : 0 ≤ t_end / Dt := div_nonneg ht hDt.le
  rw [pyInt_eq_floor hq]
  have : ⌊t_end / Dt⌋ = (0 : ℤ) := by
    rw [Int.floor_eq_iff]
    refine ⟨by exact_mod_cast hq, ?_⟩
    rw [div_lt_iff₀ hDt]
    push_cast
    linarith
  exact this

/-- For `-1 < q ≤ 0`, Python truncation gives `0` (where the floor
would give `-1`). -/
lemma pyInt_zero_of_neg_small {q : ℚ} (h1 : -1 < q) (h2 : q ≤ 0) :
    pyInt q = 0 := by
  have hnum : q.num ≤ 0 := Rat.num_nonpos.mpr h2
  have hden : 0 < (q.den : ℤ) := by exact_mod_cast q.den_pos
  have hlt : -(q.den : ℤ) < q.num := by
    have hd : (0 : ℚ) < (q.den : ℚ) := by exact_mod_cast q.den_pos
    have h1q : (-1 : ℚ) * (q.den : ℚ) < (q.num : ℚ) := by
      rw [← lt_div_iff₀ hd, Rat.num_div_den q]
      exact h1
    have : -((q.den : ℚ)) < (q.num : ℚ) := by linarith
    exact_mod_cast this
  unfold pyInt
  have hneg : q.num = -(-q.num) := by ring
  rw [hneg, Int.neg_tdiv]
  rw [Int.tdiv_eq_ediv (by omega) (by omega)]
  rw [Int.ediv_eq_zero_of_lt (by omega) (by omega)]
  rfl

/-- Sub-step negative horizon over a negative step: the quotient is in
`(-1, 0]`, truncation gives zero steps and the call returns `([0], [y0])`
with no error at all. -/
lemma solve_ode_euler_neg_step (f : ℚ → ℚ → ℚ) (y0 Dt t_end : ℚ)
    (h1 : Dt < 0) (h2 : 0 ≤ t_end) (h3 : t_end < -Dt) :
    solve_ode_euler f y0 Dt t_end = .ok ([0], [y0]) := by
  refine solve_ode_euler_of_pyInt_zero f y0 Dt t_end (ne_of_lt h1) ?_
  refine pyInt_zero_of_neg_small ?_ ?_
  · rw [lt_div_iff_of_neg h1]
    linarith
  · exact div_nonpos_of_nonneg_of_nonpos h2 h1.le

/-- Strict monotonicity of the produced time grid. -/
lemma timeGrid_chain_lt (Dt t_end : ℚ) (h1 : 0 < Dt) :
    List.Chain' (· < ·) (timeGrid Dt t_end) := by
  rcases Nat.eq_zero_or_pos (stepCount Dt t_end) with h0 | hpos
  · unfold timeGrid
    rw [h0, show List.range 1 = [0] from rfl]
    simp
  · have hDle : Dt ≤ t_end := by
      unfold stepCount at hpos
      have hfl : (1 : ℤ) ≤ ⌊t_end / Dt⌋ := by omega
      have := (Int.le_floor.mp hfl)
      rw [le_div_iff₀ h1] at this
      push_cast at this
      linarith
    have htpos : 0 < t_end := lt_of_lt_of_le h1 hDle
    have hn : (0 : ℚ) < (stepCount Dt t_end : ℚ) := by exact_mod_cast hpos
    unfold timeGrid
    rw [List.chain'_iff_pairwise]
    refine List.Pairwise.map _ (fun a b hab => ?_) (List.pairwise_lt_range _)
    have hab' : (a : ℚ) < (b : ℚ) := by exact_mod_cast hab
    exact div_lt_div_of_pos_right (by nlinarith) hn

/-- C1 (counterexample): with step size `Dt = 3/10` and horizon
`t_end = 1` the produced time values are `0, 1/3, 2/3, 1`: their
common difference `1/3` is not the step size `3/10`, refuting the
claim that the time values are spaced by the given step size. -/
theorem times_spacing_ne_step_cex :
    solve_ode_euler (fun _ _ => (0 : ℚ)) 5 (3 / 10) 1 =
        .ok ([0, 1 / 3, 2 / 3, 1], [5, 5, 5, 5]) ∧
      (1 / 3 - 0 : ℚ) ≠ 3 / 10 := by
  constructor
  · rw [solve_ode_euler_ok _ _ _ _ (by norm_num) (by norm_num)]
    have hs : stepCount (3 / 10) 1 = 3 :=
      stepCount_eq 3 (by norm_num) (by norm_num) (by norm_num)
    have ht : timeGrid (3 / 10) 1 = [0, 1 / 3, 2 / 3, 1] := by
      unfold timeGrid
      rw [hs]
      norm_num [List.range_succ]
    rw [ht, hs]
    norm_num [eulerStates]
  · norm_num

/-- C1 (amended): for every valid input the time values of the
trajectory are a strictly increasing arithmetic sequence starting at
0, whose common difference is `t_end / (int(t_end / Dt))` (the horizon
divided by the step count) rather than the requested step size. -/
theorem times_arithmetic_grid (f : ℚ → ℚ → ℚ) (y0 Dt t_end : ℚ)
    (h1 : 0 < Dt) (h2 : 0 ≤ t_end) :
    ∃ tv yv, solve_ode_euler f y0 Dt t_end = .ok (tv, yv) ∧
      tv.head? = some 0 ∧ List.Chain' (· < ·) tv ∧
      ∀ i, i + 1 < tv.length →
        tv.getD (i + 1) 0 = tv.getD i 0 + t_end / (stepCount Dt t_end : ℚ) := by
  refine ⟨timeGrid Dt t_end, _, solve_ode_euler_ok f y0 Dt t_end h1 h2,
    timeGrid_head Dt t_end, timeGrid_chain_lt Dt t_end h1, ?_⟩
  intro i hi
  rw [timeGrid_length] at hi
  rw [timeGrid_getD _ _ (by omega), timeGrid_getD _ _ (by omega)]
  push_cast
  ring

/-- C1 (witness): instance of `times_arithmetic_grid` at `Dt = 1/2`,
`t_end = 1`. -/
theorem times_arithmetic_grid_witness :
    (0 : ℚ) < 1 / 2 ∧ (0 : ℚ) ≤ 1 ∧
      (∃ tv yv, solve_ode_euler (fun _ _ => (0 : ℚ)) 5 (1 / 2) 1 = .ok (tv, yv) ∧
        tv.head? = some 0 ∧ List.Chain' (· < ·) tv ∧
        ∀ i, i + 1 < tv.length →
          tv.getD (i + 1) 0 = tv.getD i 0 + 1 / (stepCount (1 / 2) 1 : ℚ)) :=
  ⟨by norm_num, by norm_num,
    times_arithmetic_grid (fun _ _ => 0) 5 (1 / 2) 1 (by norm_num) (by norm_num)⟩

/-- C3: on every valid input the returned trajectory has exactly
`int(t_end / Dt) + 1 = ⌊t_end / Dt⌋ + 1` samples: both the time list
and the state list have that length. -/
theorem trajectory_length (f : ℚ → ℚ → ℚ) (y0 Dt t_end : ℚ)
    (h1 : 0 < Dt) (h2 : 0 ≤ t_end) :
    ∃ tv yv, solve_ode_euler f y0 Dt t_end = .ok (tv, yv) ∧
      tv.length = stepCount Dt t_end + 1 ∧
      yv.length = stepCount Dt t_end + 1 ∧
      (stepCount Dt t_end : ℤ) = ⌊t_end / Dt⌋ := by
  refine ⟨_, _, solve_ode_euler_ok f y0 Dt t_end h1 h2,
    timeGrid_length Dt t_end, ?_, ?_⟩
  · rw [eulerStates_length, List.length_take, timeGrid_length]
    omega
  · unfold stepCount
    have h0 : 0 ≤ ⌊t_end / Dt⌋ := Int.floor_nonneg.mpr (div_nonneg h2 h1.le)
    omega

/-- C3 (witness): instance of `trajectory_length` at `Dt = 3/10`,
`t_end = 1`. -/
theorem trajectory_length_witness :
    (0 : ℚ) < 3 / 10 ∧ (0 : ℚ) ≤ 1 ∧
      (∃ tv yv, solve_ode_euler (fun _ _ => (0 : ℚ)) 5 (3 / 10) 1 = .ok (tv, yv) ∧
        tv.length = stepCount (3 / 10) 1 + 1 ∧
        yv.length = stepCount (3 / 10) 1 + 1 ∧
        (stepCount (3 / 10) 1 : ℤ) = ⌊(1 : ℚ) / (3 / 10)⌋) :=
  ⟨by norm_num, by norm_num,
    trajectory_length (fun _ _ => 0) 5 (3 / 10) 1 (by norm_num) (by norm_num)⟩

/-- C9: for `Dt > 0` and `t_end ≥ Dt` the last time value is exactly
the horizon, consecutive time values are spaced by
`t_end / (int(t_end / Dt))`, and that spacing equals the requested
step size exactly when the horizon is an integer multiple of the step
size. -/
theorem grid_spacing_exact (f : ℚ → ℚ → ℚ) (y0 Dt t_end : ℚ)
    (h1 : 0 < Dt) (h2 : Dt ≤ t_end) :
    ∃ tv yv, solve_ode_euler f y0 Dt t_end = .ok (tv, yv) ∧
      tv.getLast? = some t_end ∧
      (∀ i, i + 1 < tv.length →
        tv.getD (i + 1) 0 - tv.getD i 0 = t_end / (stepCount Dt t_end : ℚ)) ∧
      (t_end / (stepCount Dt t_end : ℚ) = Dt ↔ ∃ m : ℕ, t_end = (m : ℚ) * Dt) := by
  have h2' : 0 ≤ t_end := le_trans h1.le h2
  have hn1 : 1 ≤ stepCount Dt t_end := one_le_stepCount h1 h2
  have hn0 : ((stepCount Dt t_end : ℚ)) ≠ 0 := Nat.cast_ne_zero.mpr (by omega)
  refine ⟨_, _, solve_ode_euler_ok f y0 Dt t_end h1 h2',
    timeGrid_getLast Dt t_end hn1, ?_, ?_, ?_⟩
  · intro i hi
    rw [timeGrid_length] at hi
    rw [timeGrid_getD _ _ (by omega), timeGrid_getD _ _ (by omega)]
    push_cast
    ring
  · intro hEq
    refine ⟨stepCount Dt t_end, ?_⟩
    rw [div_eq_iff hn0] at hEq
    linarith [hEq]
  · rintro ⟨m, rfl⟩
    have hm : m ≠ 0 := by
      rintro rfl
      push_cast at h2
      linarith
    have hsc : stepCount Dt ((m : ℚ) * Dt) = m :=
      stepCount_eq m h1 (le_refl _) (by nlinarith)
    rw [hsc, mul_comm, mul_div_assoc, div_self (Nat.cast_ne_zero.mpr hm), mul_one]

/-- C9 (witness): instance of `grid_spacing_exact` at `Dt = 3/10`,
`t_end = 1`. -/
theorem grid_spacing_exact_witness :
    (0 : ℚ) < 3 / 10 ∧ (3 / 10 : ℚ) ≤ 1 ∧
      (∃ tv yv, solve_ode_euler (fun _ _ => (0 : ℚ)) 5 (3 / 10) 1 = .ok (tv, yv) ∧
        tv.getLast? = some 1 ∧
        (∀ i, i + 1 < tv.length →
          tv.getD (i + 1) 0 - tv.getD i 0 = 1 / (stepCount (3 / 10) 1 : ℚ)) ∧
        (1 / (stepCount (3 / 10) 1 : ℚ) = 3 / 10 ↔
          ∃ m : ℕ, (1 : ℚ) = (m : ℚ) * (3 / 10))) :=
  ⟨by norm_num, by norm_num,
    grid_spacing_exact (fun _ _ => 0) 5 (3 / 10) 1 (by norm_num) (by norm_num)⟩

/-- Reading inside a `take` prefix agrees with the original list. -/
lemma getD_take_eq (l : List ℚ) (n i : ℕ) (h1 : i < n) (h2 : i < l.length) :
    (l.take n).getD i 0 = l.getD i 0 := by
  rw [List.getD_eq_getElem _ _ (by rw [List.length_take]; omega),
    List.getD_eq_getElem _ _ h2, List.getElem_take]

/-- C2 (counterexample): `solve_ode_euler` with the nonpositive step
size `Dt = -20` and horizon `t_end = 10` does not fail at all: it
returns the trajectory `([0], [5])`, refuting the claim that a step
size `≤ 0` always raises an invalid-argument error before any
computation. -/
theorem no_validation_cex :
    solve_ode_euler (fun _ _ => (0 : ℚ)) 5 (-20) 10 = .ok ([0], [5]) ∧
      (-20 : ℚ) ≤ 0 :=
  ⟨solve_ode_euler_neg_step _ _ _ _ (by norm_num) (by norm_num) (by norm_num),
    by norm_num⟩

/-- C2 (amended): `solve_ode_euler` performs no explicit argument
validation.  A zero step size fails with the interpreter's
`ZeroDivisionError` from evaluating `t_end / Dt`; a negative step size
need not fail at all: whenever `0 ≤ t_end < -Dt` the call returns the
one-sample trajectory `([0], [y0])` without error. -/
theorem validation_behavior (f : ℚ → ℚ → ℚ) (y0 Dt t_end : ℚ) :
    (Dt = 0 → solve_ode_euler f y0 Dt t_end = .error .zeroDivisionError) ∧
    (Dt < 0 → 0 ≤ t_end → t_end < -Dt →
      solve_ode_euler f y0 Dt t_end = .ok ([0], [y0])) := by
  constructor
  · rintro rfl
    unfold solve_ode_euler
    rw [if_pos rfl]
  · exact solve_ode_euler_neg_step f y0 Dt t_end

/-- C2 (witness): instances of both branches of
`validation_behavior`. -/
theorem validation_behavior_witness :
    solve_ode_euler (fun _ _ => (0 : ℚ)) 7 0 10 = .error .zeroDivisionError ∧
      solve_ode_euler (fun _ _ => (0 : ℚ)) 7 (-3) 2 = .ok ([0], [7]) :=
  ⟨(validation_behavior (fun _ _ => 0) 7 0 10).1 rfl,
    (validation_behavior (fun _ _ => 0) 7 (-3) 2).2 (by norm_num) (by norm_num)
      (by norm_num)⟩

/-- C4 (counterexample): with `Dt = 2/5` and `t_end = 1` the time
value after the first step is `1/2`, not `0 + 2/5`: time does not
advance by the requested step size, refuting that part of the claimed
algorithm description. -/
theorem time_advance_ne_step_cex :
    solve_ode_euler (fun _ _ => (0 : ℚ)) 5 (2 / 5) 1 =
        .ok ([0, 1 / 2, 1], [5, 5, 5]) ∧
      (0 + 2 / 5 : ℚ) ≠ 1 / 2 := by
  constructor
  · rw [solve_ode_euler_ok _ _ _ _ (by norm_num) (by norm_num)]
    have hs : stepCount (2 / 5) 1 = 2 :=
      stepCount_eq 2 (by norm_num) (by norm_num) (by norm_num)
    have ht : timeGrid (2 / 5) 1 = [0, 1 / 2, 1] := by
      unfold timeGrid
      rw [hs]
      norm_num [List.range_succ]
    rw [ht, hs]
    norm_num [eulerStates]
  · norm_num

/-- C4 (amended): the trajectory starts at time 0 with the initial
state, and each step adds `dydt(state, time) * Dt` to the state — the
derivative is evaluated at the current state and current grid time and
multiplied by the requested step size — while the time advances by
`t_end / (int(t_end / Dt))`, not by the requested step size. -/
theorem euler_recurrence (f : ℚ → ℚ → ℚ) (y0 Dt t_end : ℚ)
    (h1 : 0 < Dt) (h2 : 0 ≤ t_end) :
    ∃ tv yv, solve_ode_euler f y0 Dt t_end = .ok (tv, yv) ∧
      tv.getD 0 0 = 0 ∧ yv.getD 0 0 = y0 ∧
      ∀ i, i < stepCount Dt t_end →
        yv.getD (i + 1) 0 = yv.getD i 0 + f (yv.getD i 0) (tv.getD i 0) * Dt ∧
        tv.getD (i + 1) 0 = tv.getD i 0 + t_end / (stepCount Dt t_end : ℚ) := by
  refine ⟨_, _, solve_ode_euler_ok f y0 Dt t_end h1 h2, ?_, ?_, ?_⟩
  · rw [timeGrid_getD _ _ (by omega)]
    norm_num
  · exact eulerStates_getD_zero f Dt _ y0
  · intro i hi
    have hlen : ((timeGrid Dt t_end).take (stepCount Dt t_end)).length =
        stepCount Dt t_end := by
      rw [List.length_take, timeGrid_length]
      omega
    constructor
    · rw [eulerStates_getD_succ f Dt _ y0 i (by omega)]
      rw [getD_take_eq _ _ _ hi (by rw [timeGrid_length]; omega)]
    · rw [timeGrid_getD _ _ (by omega), timeGrid_getD _ _ (by omega)]
      push_cast
      ring

/-- C4 (witness): instance of `euler_recurrence` at `Dt = 1/2`,
`t_end = 1` with the derivative `f y t = y`. -/
theorem euler_recurrence_witness :
    (0 : ℚ) < 1 / 2 ∧ (0 : ℚ) ≤ 1 ∧
      (∃ tv yv, solve_ode_euler (fun y _ => y) 4 (1 / 2) 1 = .ok (tv, yv) ∧
        tv.getD 0 0 = 0 ∧ yv.getD 0 0 = 4 ∧
        ∀ i, i < stepCount (1 / 2) 1 →
          yv.getD (i + 1) 0 = yv.getD i 0 + yv.getD i 0 * (1 / 2) ∧
          tv.getD (i + 1) 0 = tv.getD i 0 + 1 / (stepCount (1 / 2) 1 : ℚ)) :=
  ⟨by norm_num, by norm_num,
    euler_recurrence (fun y _ => y) 4 (1 / 2) 1 (by norm_num) (by norm_num)⟩

/-- C5: with a derivative function that always returns zero, every
state of the trajectory equals the initial state. -/
theorem zero_derivative_constant (f : ℚ → ℚ → ℚ) (y0 Dt t_end : ℚ)
    (hf : ∀ y t, f y t = 0) (h1 : 0 < Dt) (h2 : 0 ≤ t_end) :
    ∃ tv yv, solve_ode_euler f y0 Dt t_end = .ok (tv, yv) ∧
      yv = List.replicate (stepCount Dt t_end + 1) y0 ∧
      ∀ z ∈ yv, z = y0 := by
  have hfz : f = fun _ _ => 0 := funext fun y => funext fun t => hf y t
  subst hfz
  have hyv : eulerStates (fun _ _ => 0) Dt
      ((timeGrid Dt t_end).take (stepCount Dt t_end)) y0 =
      List.replicate (stepCount Dt t_end + 1) y0 := by
    rw [eulerStates_zero]
    congr 1
    rw [List.length_take, timeGrid_length]
    omega
  refine ⟨_, _, solve_ode_euler_ok _ y0 Dt t_end h1 h2, hyv, ?_⟩
  intro z hz
  rw [hyv] at hz
  exact List.eq_of_mem_replicate hz

/-- C5 (witness): instance of `zero_derivative_constant` at `y0 = 7`,
`Dt = 1/3`, `t_end = 1`. -/
theorem zero_derivative_constant_witness :
    (0 : ℚ) < 1 / 3 ∧ (0 : ℚ) ≤ 1 ∧
      (∃ tv yv, solve_ode_euler (fun _ _ => 0) 7 (1 / 3) 1 = .ok (tv, yv) ∧
        yv = List.replicate (stepCount (1 / 3) 1 + 1) 7 ∧
        ∀ z ∈ yv, z = 7) :=
  ⟨by norm_num, by norm_num,
    zero_derivative_constant (fun _ _ => 0) 7 (1 / 3) 1 (fun _ _ => rfl)
      (by norm_num) (by norm_num)⟩

/-- C10: for a horizon strictly below one step (`0 ≤ t_end < Dt`) the
trajectory is the single sample `(0, y0)` and the derivative function
is never evaluated: the result is the same for every pure derivative
`f` and even for every fallible derivative `dydt`, which would abort
the run if it were called. -/
theorem subthreshold_horizon_single_sample (ε : Type) (f : ℚ → ℚ → ℚ)
    (dydt : ℚ → ℚ → Except ε ℚ) (y0 Dt t_end : ℚ)
    (h1 : 0 < Dt) (h2 : 0 ≤ t_end) (h3 : t_end < Dt) :
    solve_ode_euler f y0 Dt t_end = .ok ([0], [y0]) ∧
      solve_ode_eulerE dydt y0 Dt t_end = .ok ([0], [y0]) :=
  ⟨solve_ode_euler_of_pyInt_zero f y0 Dt t_end (ne_of_gt h1)
      (pyInt_zero_of_small h1 h2 h3),
    solve_ode_eulerE_of_pyInt_zero dydt y0 Dt t_end (ne_of_gt h1)
      (pyInt_zero_of_small h1 h2 h3)⟩

/-- C10 (witness): instance of `subthreshold_horizon_single_sample`
with an always-failing derivative, at `Dt = 2`, `t_end = 3/2`. -/
theorem subthreshold_horizon_single_sample_witness :
    (0 : ℚ) < 2 ∧ (0 : ℚ) ≤ 3 / 2 ∧ (3 / 2 : ℚ) < 2 ∧
      solve_ode_euler (fun _ _ => (1 : ℚ)) 9 2 (3 / 2) = .ok ([0], [9]) ∧
      solve_ode_eulerE (fun _ _ => Except.error (0 : ℕ)) 9 2 (3 / 2) =
        .ok ([0], [9]) := by
  have h := subthreshold_horizon_single_sample ℕ (fun _ _ => 1)
    (fun _ _ => .error 0) 9 2 (3 / 2) (by norm_num) (by norm_num) (by norm_num)
  exact ⟨by norm_num, by norm_num, by norm_num, h.1, h.2⟩

/-- Any error surfaced by the Euler loop is literally the value some
derivative call returned: the loop contains no handler. -/
lemma eulerStatesE_error_src {ε : Type} (dydt : ℚ → ℚ → Except ε ℚ) (Dt : ℚ) :
    ∀ (ts : List ℚ) (y : ℚ) (e : ε),
      eulerStatesE dydt Dt ts y = .error e → ∃ y2 t2, dydt y2 t2 = .error e := by
  intro ts
  induction ts with
  | nil =>
    intro y e h
    simp [eulerStatesE] at h
  | cons t ts ih =>
    intro y e h
    cases hd : dydt y t with
    | error e2 =>
      simp only [eulerStatesE, hd, Except.error.injEq] at h
      exact ⟨y, t, by rw [hd, h]⟩
    | ok d =>
      simp only [eulerStatesE, hd] at h
      cases hrec : eulerStatesE dydt Dt ts (y + d * Dt) with
      | error e2 =>
        simp only [hrec, Except.error.injEq] at h
        exact ih (y + d * Dt) e (h ▸ hrec)
      | ok l =>
        simp [hrec] at h

/-- Normal form of `solve_ode_eulerE` on valid inputs. -/
lemma solve_ode_eulerE_ok_form {ε : Type} (dydt : ℚ → ℚ → Except ε ℚ)
    (y0 Dt t_end : ℚ) (hDt : 0 < Dt) (ht : 0 ≤ t_end) :
    solve_ode_eulerE dydt y0 Dt t_end =
      match eulerStatesE dydt Dt
          ((timeGrid Dt t_end).take (stepCount Dt t_end)) y0 with
      | .error e => .error (.inr e)
      | .ok ys => .ok (timeGrid Dt t_end, ys) := by
  have hDt0 : Dt ≠ 0 := ne_of_gt hDt
  have hq : 0 ≤ t_end / Dt := div_nonneg ht hDt.le
  have hfl : 0 ≤ ⌊t_end / Dt⌋ := Int.floor_nonneg.mpr hq
  have hpy : pyInt (t_end / Dt) = ⌊t_end / Dt⌋ := pyInt_eq_floor hq
  have htn : (⌊t_end / Dt⌋ + 1).toNat = stepCount Dt t_end + 1 := by
    unfold stepCount; omega
  have htn2 : (⌊t_end / Dt⌋).toNat = stepCount Dt t_end := rfl
  unfold solve_ode_eulerE
  rw [if_neg hDt0, hpy, if_neg (by omega), if_neg (by omega), htn, htn2,
    linspace_zero_eq_map]
  rfl

/-- The head of a nonempty `take` prefix is the head of the list. -/
lemma head?_take {α : Type} (l : List α) (n : ℕ) (hn : 1 ≤ n) :
    (l.take n).head? = l.head? := by
  cases l with
  | nil => simp
  | cons a t =>
    obtain ⟨m, rfl⟩ : ∃ m, n = m + 1 := ⟨n - 1, by omega⟩
    simp [List.take_succ_cons]

/-- C6: an error raised by the caller-supplied derivative function
propagates unchanged.  Whenever a run surfaces a derivative error
(`Sum.inr`), that exact value was returned by some derivative call —
nothing catches, wraps or replaces it, and no trajectory is produced —
and conversely a derivative that fails at the first evaluation point
`(y0, 0)` makes the whole run return precisely that error. -/
theorem derivative_error_propagates (ε : Type) (dydt : ℚ → ℚ → Except ε ℚ)
    (y0 Dt t_end : ℚ) (e : ε) (h1 : 0 < Dt) (h2 : Dt ≤ t_end) :
    (solve_ode_eulerE dydt y0 Dt t_end = .error (Sum.inr e) →
      ∃ y t, dydt y t = .error e) ∧
    (dydt y0 0 = .error e →
      solve_ode_eulerE dydt y0 Dt t_end = .error (Sum.inr e)) := by
  have h2' : 0 ≤ t_end := le_trans h1.le h2
  have hn1 : 1 ≤ stepCount Dt t_end := one_le_stepCount h1 h2
  have hne : (timeGrid Dt t_end).take (stepCount Dt t_end) ≠ [] := by
    intro hempty
    have hl : ((timeGrid Dt t_end).take (stepCount Dt t_end)).length =
        stepCount Dt t_end := by
      rw [List.length_take, timeGrid_length]
      omega
    rw [hempty] at hl
    simp at hl
    omega
  obtain ⟨t0, rest, hcons⟩ := List.exists_cons_of_ne_nil hne
  have ht0 : t0 = 0 := by
    have hh : ((timeGrid Dt t_end).take (stepCount Dt t_end)).head? = some 0 := by
      rw [head?_take _ _ hn1, timeGrid_head]
    rw [hcons] at hh
    simpa using hh
  constructor
  · intro h
    rw [solve_ode_eulerE_ok_form dydt y0 Dt t_end h1 h2'] at h
    cases hrec : eulerStatesE dydt Dt
        ((timeGrid Dt t_end).take (stepCount Dt t_end)) y0 with
    | error e2 =>
      simp only [hrec, Except.error.injEq, Sum.inr.injEq] at h
      exact eulerStatesE_error_src dydt Dt _ y0 e (h ▸ hrec)
    | ok l =>
      simp [hrec] at h
  · intro hder
    rw [solve_ode_eulerE_ok_form dydt y0 Dt t_end h1 h2', hcons, ht0]
    simp [eulerStatesE, hder]

/-- C6 (witness): a derivative that always fails with the error `7`
makes the run fail with exactly `Sum.inr 7`. -/
theorem derivative_error_propagates_witness :
    (0 : ℚ) < 1 ∧ (1 : ℚ) ≤ 2 ∧
      solve_ode_eulerE (fun _ _ => Except.error (7 : ℕ)) 1 1 2 =
        .error (Sum.inr 7) :=
  ⟨by norm_num, by norm_num,
    (derivative_error_propagates ℕ (fun _ _ => .error 7) 1 1 2 7
      (by norm_num) (by norm_num)).2 rfl⟩

/-- C7: with the exponential-decay derivative (`k = 1`), `y0 = 10`,
`Dt = 1/1000` and `t_end = 1`, the final state is exactly
`10 * (999/1000)^1000`, and that value is within 1% relative error of
`10 * e⁻¹`. -/
theorem exp_decay_convergence :
    (solve_ode_euler (fun y t => exp_decay_dt y t 1) 10 (1 / 1000) 1).map
        (fun p => p.2.getLast?) =
      .ok (some (10 * (999 / 1000 : ℚ) ^ 1000)) ∧
    |(10 * ((999 : ℝ) / 1000) ^ 1000) - 10 * Real.exp (-1)| <
      (1 / 100) * (10 * Real.exp (-1)) := by
  constructor
  · rw [solve_ode_euler_ok _ _ _ _ (by norm_num) (by norm_num)]
    have hs : stepCount (1 / 1000) 1 = 1000 :=
      stepCount_eq 1000 (by norm_num) (by norm_num) (by norm_num)
    have hlen : ((timeGrid (1 / 1000) 1).take (stepCount (1 / 1000) 1)).length =
        1000 := by
      rw [List.length_take, timeGrid_length, hs]
      omega
    have hr : (1 - 1 * (1 / 1000) : ℚ) = 999 / 1000 := by norm_num
    rw [show ((Except.ok (timeGrid (1 / 1000) 1,
        eulerStates (fun y t => exp_decay_dt y t 1) (1 / 1000)
          ((timeGrid (1 / 1000) 1).take (stepCount (1 / 1000) 1)) 10) :
        Except PyError (List ℚ × List ℚ)).map (fun p => p.2.getLast?)) =
        .ok ((eulerStates (fun y t => exp_decay_dt y t 1) (1 / 1000)
          ((timeGrid (1 / 1000) 1).take (stepCount (1 / 1000) 1)) 10).getLast?)
      from rfl]
    rw [eulerStates_exp_decay, hlen, hr, getLast?_map_range]
  · have hQl : (3676 / 10000 : ℚ) ≤ (999 / 1000) ^ 1000 := by norm_num
    have hQu : ((999 / 1000 : ℚ)) ^ 1000 ≤ 3677 / 10000 := by norm_num
    have hl : (3676 / 10000 : ℝ) ≤ ((999 : ℝ) / 1000) ^ 1000 := by
      have h2 : ((3676 / 10000 : ℚ) : ℝ) ≤ ((999 / 1000 : ℚ) : ℝ) ^ 1000 := by
        rw [← Rat.cast_pow]
        exact Rat.cast_le.mpr hQl
      push_cast at h2
      exact h2
    have hu : ((999 : ℝ) / 1000) ^ 1000 ≤ 3677 / 10000 := by
      have h2 : ((999 / 1000 : ℚ) : ℝ) ^ 1000 ≤ ((3677 / 10000 : ℚ) : ℝ) := by
        rw [← Rat.cast_pow]
        exact Rat.cast_le.mpr hQu
      push_cast at h2
      exact h2
    have e1 : (2.7182818283 : ℝ) < Real.exp 1 := Real.exp_one_gt_d9
    have e2 : Real.exp 1 < 2.7182818286 := Real.exp_one_lt_d9
    have epos : (0 : ℝ) < Real.exp 1 := Real.exp_pos 1
    have hinv : Real.exp (-1) = (Real.exp 1)⁻¹ := by
      rw [← Real.exp_neg]
    have hIpos : (0 : ℝ) < (Real.exp 1)⁻¹ := by positivity
    have hEI : Real.exp 1 * (Real.exp 1)⁻¹ = 1 := mul_inv_cancel₀ (ne_of_gt epos)
    rw [hinv, abs_sub_lt_iff]
    constructor
    · nlinarith [mul_pos (sub_pos.mpr e1) hIpos]
    · nlinarith [mul_pos (sub_pos.mpr e2) hIpos]

/-- C8: an out-of-range parameter value does not make the Harness
fail: the value is clamped to the nearest declared bound and the
trajectory is the one the Integrator produces for the clamped value
directly. -/
theorem harness_clamps (d : ParamDescriptor) (v : ℚ)
    (hd : d.minimum ≤ d.maximum) (hout : v < d.minimum ∨ d.maximum < v) :
    harnessTrajectory d v =
        solve_and_plot (if v < d.minimum then d.minimum else d.maximum) ∧
      (v < d.minimum → clampParam d v = d.minimum) ∧
      (d.maximum < v → clampParam d v = d.maximum) := by
  have hcl : clampParam d v = if v < d.minimum then d.minimum else d.maximum := by
    unfold clampParam
    rcases hout with h | h
    · rw [if_pos h, min_eq_right (le_of_lt (lt_of_lt_of_le h hd)),
        max_eq_left h.le]
    · rw [if_neg (by intro h2; exact absurd (lt_trans h h2) (not_lt.mpr hd)),
        min_eq_left h.le, max_eq_right hd]
  refine ⟨by unfold harnessTrajectory; rw [hcl], ?_, ?_⟩
  · intro h
    rw [hcl, if_pos h]
  · intro h
    rw [hcl, if_neg (fun h2 => absurd (lt_trans h h2) (not_lt.mpr hd))]

/-- C8 (witness): the notebook's slider descriptor
`Dt = (0.0, 2.0, 0.1)` with the out-of-range value `3` clamps to the
upper bound `2`. -/
theorem harness_clamps_witness :
    (0 : ℚ) ≤ 2 ∧ ((3 : ℚ) < 0 ∨ (2 : ℚ) < 3) ∧
      (harnessTrajectory ⟨0, 2, 1 / 10, 1⟩ 3 =
          solve_and_plot (if (3 : ℚ) < 0 then 0 else 2) ∧
        ((3 : ℚ) < 0 → clampParam ⟨0, 2, 1 / 10, 1⟩ 3 = 0) ∧
        ((2 : ℚ) < 3 → clampParam ⟨0, 2, 1 / 10, 1⟩ 3 = 2)) :=
  ⟨by norm_num, Or.inr (by norm_num),
    harness_clamps ⟨0, 2, 1 / 10, 1⟩ 3 (by norm_num) (Or.inr (by norm_num))⟩

end EthEdc
